import Mathlib

/-!
Verification of the SIFT pyOCL host pipeline (`sift-src/plan.py`) and its
reference CPU implementations (`test/test_image.py`) against the
natural-language specification.  Python functions are shallowly embedded:
float arithmetic is modelled over `ℚ` (exact) where only field operations and
comparisons occur, and over `ℝ` where transcendental functions
(`exp`, `2.0 ** x`) appear; NumPy int values are modelled by `ℕ`/`ℤ`.
-/

namespace SiftPyocl

/-! ## Pyramid construction trace (`SiftPlan.keypoints`, plan.py lines 271-288)

The per-octave blur/DoG loop of `keypoints` is modelled as the list of device
operations it enqueues, in program order.  `conv o i` is the separable
Gaussian convolution writing `G[o,i+1]` from `G[o,i]`; `combine o i` writes
`DoG[o,i] = G[o,i+1] - G[o,i]`; `shrink o l o2 l2` is the stride-2 decimation
kernel reading `G[o,l]` and writing `G[o2,l2]`. -/

inductive PyrOp
  | conv (octave i : ℕ)
  | combine (octave i : ℕ)
  | shrink (srcOctave srcLevel dstOctave dstLevel : ℕ)
  deriving DecidableEq, Repr

def PyrOp.isShrink : PyrOp → Bool
  | .shrink _ _ _ _ => true
  | _ => false

/-- Value of the Python loop variable `i` after `for i in range(par.Scales + 2)`
has run to completion (the range is nonempty since `S + 2 ≥ 2`, so `i` is the
last element of the range). -/
def lastLoopIndex (S : ℕ) : ℕ := S + 1

/-- Operations enqueued for one octave by `keypoints` (plan.py lines 274-287):
the inner loop enqueues a convolution and a DoG subtraction for each
`i in range(S+2)`; afterwards, at the indentation level of the octave loop,
`if i < par.Scales + 1:` guards the `shrink` call whose source buffer as
written in the source is `(octave, 0, "G")` and whose destination is
`(octave + 1, 0, "G")`. -/
def octaveOps (S o : ℕ) : List PyrOp :=
  ((List.range (S + 2)).flatMap fun i => [PyrOp.conv o i, PyrOp.combine o i]) ++
    (if lastLoopIndex S < S + 1 then [PyrOp.shrink o 0 (o + 1) 0] else [])

/-- Full trace of the pyramid section of `keypoints` over all octaves
(`for octave in range(len(self.scales))`). -/
def pyramidOps (S nOct : ℕ) : List PyrOp :=
  (List.range nOct).flatMap (octaveOps S)

/-! ## Octave geometry (`SiftPlan._calc_scales`, plan.py lines 75-85, and
`SiftPlan._calc_workgroups`, plan.py lines 195-215)

`_calc_scales` starts from the (XY-swapped) full shape, repeatedly halves the
(H, W) shape while `min(shape) > 2 * par.BorderDist + 2`, appending each
halved shape, then pops the last appended element.  `_calc_workgroups`
re-runs the same while loop, appending one workgroup size and one processing
size per iteration; the actual values depend on the device, so they are
abstracted as functions of the current shape. -/

/-- The while loop body of `_calc_scales`: the list of shapes appended by
`while min(shape) > min_size: shape = shape // 2; scales.append(shape)`. -/
def scalesLoop (B H W : ℕ) : List (ℕ × ℕ) :=
  if h : 2 * B + 2 < min H W then (H / 2, W / 2) :: scalesLoop B (H / 2) (W / 2) else []
termination_by H
decreasing_by
  have hH : 2 * B + 2 < H := lt_of_lt_of_le h (min_le_left H W)
  exact Nat.div_lt_self (by omega) (by omega)

/-- `_calc_scales`: the initial element is the XY-swapped input shape
(`self.shape[-1::-1]`), the loop appends the halved shapes, and the final
`self.scales.pop()` removes the last element. -/
def calc_scales (B H W : ℕ) : List (ℕ × ℕ) :=
  (((W, H) :: scalesLoop B H W)).dropLast

/-- The while loop of `_calc_workgroups`: for each shape satisfying the same
size bound, one `(wgsize, procsize)` pair is appended before the shape is
halved.  `wg` abstracts `(1, min(2**int(log(shape[1])/log(2)), max_work_item_sizes[1]))`
and `ps` abstracts `calc_size(shape, wg)`, both device-dependent. -/
def workgroupsLoop (B : ℕ) (wg ps : ℕ × ℕ → ℕ × ℕ) (H W : ℕ) :
    List ((ℕ × ℕ) × (ℕ × ℕ)) :=
  if h : 2 * B + 2 < min H W then
    (wg (H, W), ps (H, W)) :: workgroupsLoop B wg ps (H / 2) (W / 2)
  else []
termination_by H
decreasing_by
  have hH : 2 * B + 2 < H := lt_of_lt_of_le h (min_le_left H W)
  exact Nat.div_lt_self (by omega) (by omega)

/-- `self.wgsize` after `_calc_workgroups`. -/
def wgsizeList (B : ℕ) (wg ps : ℕ × ℕ → ℕ × ℕ) (H W : ℕ) : List (ℕ × ℕ) :=
  (workgroupsLoop B wg ps H W).map Prod.fst

/-- `self.procsize` after `_calc_workgroups`. -/
def procsizeList (B : ℕ) (wg ps : ℕ × ℕ → ℕ × ℕ) (H W : ℕ) : List (ℕ × ℕ) :=
  (workgroupsLoop B wg ps H W).map Prod.snd

/-- Spec-side predicate for claim C6: octaves `0, …, O-1` all satisfy the size
bound `min(⌊H/2^o⌋, ⌊W/2^o⌋) > 2·B + 2`. -/
def validUpTo (B H W O : ℕ) : Prop :=
  ∀ o < O, 2 * B + 2 < min (H / 2 ^ o) (W / 2 ^ o)

instance (B H W O : ℕ) : Decidable (validUpTo B H W O) := by
  unfold validUpTo; infer_instance

/-- Octave count as literally stated by claim C6: "the largest O such that
min(⌊H/2^o⌋, ⌊W/2^o⌋) > 2·B + 2 holds for all octaves o below O, minus one". -/
def claimedOctaveCount (B H W : ℕ) : ℕ :=
  Nat.findGreatest (validUpTo B H W) H - 1

/-! ## Buffer registry teardown (`SiftPlan._free_buffers`, plan.py lines 163-173)

The registry is modelled as an association list from names (abstract type `α`)
to optional device buffers (`Option Unit`; only presence matters).  The Python
loop visits each key: entries that are already `None` are skipped, otherwise
the buffer is deleted and the slot set to `None`; a `pyopencl.LogicError`
raised by the release is caught, the name logged, and iteration continues.
`fail n = true` models "releasing buffer `n` raises `LogicError`".  The result
is the final registry together with the list of logged names, in visit order. -/

def free_buffers {α : Type} (fail : α → Bool) :
    List (α × Option Unit) → List (α × Option Unit) × List α
  | [] => ([], [])
  | (n, b) :: rest =>
    let tail := free_buffers fail rest
    match b with
    | none => ((n, none) :: tail.1, tail.2)
    | some _ => ((n, none) :: tail.1, if fail n then n :: tail.2 else tail.2)

/-! ## Constructor shape handling and conversion dispatch
(`SiftPlan.__init__`, plan.py lines 28-40, and `SiftPlan.keypoints`,
plan.py lines 220-251) -/

inductive DType
  | f32 | u8 | u16 | s32 | s64 | other
  deriving DecidableEq, Repr

inductive ConvBranch
  | identityF32   -- direct copy for float32 input
  | rgbToFloat    -- `rgb_to_float` kernel (uint8, RGB flag set)
  | u8ToFloat | u16ToFloat | s32ToFloat | s64ToFloat
  | invalidFormat -- `raise RuntimeError("invalid input format error")`
  | assertFail    -- `assert image.shape == self.shape` / dtype mismatch
  deriving DecidableEq, Repr

/-- `__init__` shape handling: a 3-dimensional shape sets `RGB = True` and is
truncated to its first two components (`self.shape = self.shape[:2]`); a
2-dimensional shape sets `RGB = False`; anything else raises (`none`). -/
def initShape (shape : List ℕ) : Option (List ℕ × Bool) :=
  if shape.length = 3 then some (shape.take 2, true)
  else if shape.length = 2 then some (shape, false)
  else none

/-- Conversion dispatch at the start of `keypoints`: the two asserts compare
the supplied image's shape and dtype with the stored ones, then the branch is
selected on `self.dtype`, with the uint8 branch further split on `self.RGB`. -/
def keypointsBranch (stored : List ℕ × Bool) (dt : DType)
    (imgShape : List ℕ) (imgDt : DType) : ConvBranch :=
  if imgShape = stored.1 ∧ imgDt = dt then
    match dt with
    | .f32 => .identityF32
    | .u8 => if stored.2 then .rgbToFloat else .u8ToFloat
    | .u16 => .u16ToFloat
    | .s32 => .s32ToFloat
    | .s64 => .s64ToFloat
    | .other => .invalidFormat
  else .assertFail

/-! ## Extremum detection (`is_maxmin` / `my_local_maxmin`,
test_image.py lines 75-137)

DoG images are modelled as total functions `ℤ → ℤ → ℚ` (row, column ↦ value);
the detector only reads the 3×3 neighborhood, which is interior by the
`border_dist ≥ 2` assumption stated in the source.  Float arithmetic is
modelled exactly over `ℚ`. -/

/-- The 3×3 cell block scanned by the two nested `for` loops of `is_maxmin`
(`for j in range(j0-1, j0+2): for i in range(i0-1, i0+2)`). -/
def cells (i0 j0 : ℤ) : List (ℤ × ℤ) :=
  [(i0 - 1, j0 - 1), (i0, j0 - 1), (i0 + 1, j0 - 1),
   (i0 - 1, j0), (i0, j0), (i0 + 1, j0),
   (i0 - 1, j0 + 1), (i0, j0 + 1), (i0 + 1, j0 + 1)]

/-- `H00 = dog[i0-1,j0] - 2*dog[i0,j0] + dog[i0+1,j0]` (test_image.py line 122). -/
def edgeH00 (d : ℤ → ℤ → ℚ) (i0 j0 : ℤ) : ℚ :=
  d (i0 - 1) j0 - 2 * d i0 j0 + d (i0 + 1) j0

/-- `H11 = dog[i0,j0-1] - 2*dog[i0,j0] + dog[i0,j0+1]` (test_image.py line 123). -/
def edgeH11 (d : ℤ → ℤ → ℚ) (i0 j0 : ℤ) : ℚ :=
  d i0 (j0 - 1) - 2 * d i0 j0 + d i0 (j0 + 1)

/-- `H01 = ((dog[i0+1,j0+1] - dog[i0+1,j0-1]) - (dog[i0-1,j0+1] - dog[i0-1,j0-1]))/4`
(test_image.py lines 124-125). -/
def edgeH01 (d : ℤ → ℤ → ℚ) (i0 j0 : ℤ) : ℚ :=
  ((d (i0 + 1) (j0 + 1) - d (i0 + 1) (j0 - 1)) -
    (d (i0 - 1) (j0 + 1) - d (i0 - 1) (j0 - 1))) / 4

/-- `det = H00 * H11 - H01 * H01`. -/
def edgeDet (d : ℤ → ℤ → ℚ) (i0 j0 : ℤ) : ℚ :=
  edgeH00 d i0 j0 * edgeH11 d i0 j0 - edgeH01 d i0 j0 * edgeH01 d i0 j0

/-- `trace = H00 + H11`. -/
def edgeTrace (d : ℤ → ℤ → ℚ) (i0 j0 : ℤ) : ℚ :=
  edgeH00 d i0 j0 + edgeH11 d i0 j0

/-- `thr = EdgeThresh0 if octsize <= 1 else EdgeThresh`. -/
def edgeThr (octsize : ℤ) (eth0 eth : ℚ) : ℚ :=
  if octsize ≤ 1 then eth0 else eth

/-- Final value of the `ismax` flag of `is_maxmin`: set iff `val > 0.0` and no
cell of the 3×3 block has `dog_prev`, `dog` or `dog_next` strictly greater
than `val` (the comparisons in the source are strict, so the centre pixel of
the middle level never clears the flag). -/
def ismaxAt (dp d dn : ℤ → ℤ → ℚ) (val : ℚ) (i0 j0 : ℤ) : Bool :=
  decide (0 < val) &&
    (cells i0 j0).all fun p =>
      !(decide (val < dp p.1 p.2) || decide (val < d p.1 p.2) ||
        decide (val < dn p.1 p.2))

/-- Final value of the `ismin` flag of `is_maxmin`: set iff `val ≤ 0.0` and no
cell of the 3×3 block has a value strictly less than `val`. -/
def isminAt (dp d dn : ℤ → ℤ → ℚ) (val : ℚ) (i0 j0 : ℤ) : Bool :=
  (!decide (0 < val)) &&
    (cells i0 j0).all fun p =>
      !(decide (dp p.1 p.2 < val) || decide (d p.1 p.2 < val) ||
        decide (dn p.1 p.2 < val))

/-- `is_maxmin` (test_image.py lines 99-137): returns `1` for a local maximum,
`-1` for a local minimum, `0` otherwise, and is forced to `0` by the edge test
`det < thr * trace * trace`.  The source computes `res` first and then
overwrites it after the edge test; the returned value is the same. -/
def is_maxmin (dp d dn : ℤ → ℤ → ℚ) (val : ℚ) (i0 j0 : ℤ)
    (octsize : ℤ) (eth0 eth : ℚ) : ℤ :=
  if edgeDet d i0 j0 < edgeThr octsize eth0 eth * edgeTrace d i0 j0 * edgeTrace d i0 j0
  then 0
  else if ismaxAt dp d dn val i0 j0 then 1
  else if isminAt dp d dn val i0 j0 then -1
  else 0

/-- Loop body of `my_local_maxmin` (test_image.py lines 88-95) at pixel
`(i, j)`: a candidate record is written iff `abs(val) > 0.8 * thresh` and
`is_maxmin(...) != 0`, where `val = dog[i, j]`. -/
def local_maxmin_emit (dp d dn : ℤ → ℤ → ℚ) (thresh : ℚ)
    (octsize : ℤ) (eth0 eth : ℚ) (i j : ℤ) : Bool :=
  decide ((0.8 : ℚ) * thresh < |d i j|) &&
    decide (is_maxmin dp d dn (d i j) i j octsize eth0 eth ≠ 0)

/-- The values of the 26 neighbors in the 3×3×3 neighborhood of `(i0, j0)`
across the levels `dp, d, dn`, excluding the centre `d i0 j0` — the
neighborhood that claim C3 speaks about. -/
def neighbors26 (dp d dn : ℤ → ℤ → ℚ) (i0 j0 : ℤ) : List ℚ :=
  ((cells i0 j0).map fun p => dp p.1 p.2) ++
    (((cells i0 j0).filter fun p => decide (p ≠ (i0, j0))).map fun p => d p.1 p.2) ++
    ((cells i0 j0).map fun p => dn p.1 p.2)

/-- Claim C3's candidate predicate, stated from the spec's words: magnitude
above `0.8·PeakThresh` and all 26 neighbors strictly below `v` (maximum case)
or strictly above `v` (minimum case). -/
def claimCandidate (dp d dn : ℤ → ℤ → ℚ) (thresh : ℚ) (i0 j0 : ℤ) : Prop :=
  (0.8 : ℚ) * thresh < |d i0 j0| ∧
    ((∀ x ∈ neighbors26 dp d dn i0 j0, x < d i0 j0) ∨
      (∀ x ∈ neighbors26 dp d dn i0 j0, d i0 j0 < x))

/-! ## Sub-pixel refinement (`fit_quadratic` / `my_interp_keypoint`,
test_image.py lines 143-206) -/

/-- `fit_quadratic` (test_image.py lines 178-206): 3-D gradient and Hessian of
the DoG stack at `(r, c)` by centred differences, then `x = -H⁻¹·g`
(`numpy.linalg.inv` on the symmetric 3×3 Hessian, written here as the
closed-form adjugate solve; `numpy.linalg.inv` raises on a singular matrix,
which no input considered here produces) and
`peakval = dog[r,c] + 0.5*(x·g)`. -/
def fit_quadratic (dp d dn : ℤ → ℤ → ℚ) (r c : ℤ) : (ℚ × ℚ × ℚ) × ℚ :=
  let g0 := (dn r c - dp r c) / 2
  let g1 := (d (r + 1) c - d (r - 1) c) / 2
  let g2 := (d r (c + 1) - d r (c - 1)) / 2
  let h00 := dp r c - 2 * d r c + dn r c
  let h11 := d (r - 1) c - 2 * d r c + d (r + 1) c
  let h22 := d r (c - 1) - 2 * d r c + d r (c + 1)
  let h01 := ((dn (r + 1) c - dn (r - 1) c) - (dp (r + 1) c - dp (r - 1) c)) / 4
  let h02 := ((dn r (c + 1) - dn r (c - 1)) - (dp r (c + 1) - dp r (c - 1))) / 4
  let h12 := ((d (r + 1) (c + 1) - d (r + 1) (c - 1)) -
      (d (r - 1) (c + 1) - d (r - 1) (c - 1))) / 4
  let det := h00 * (h11 * h22 - h12 * h12) - h01 * (h01 * h22 - h12 * h02) +
      h02 * (h01 * h12 - h11 * h02)
  let x0 := -((h11 * h22 - h12 * h12) * g0 + (h02 * h12 - h01 * h22) * g1 +
      (h01 * h12 - h02 * h11) * g2) / det
  let x1 := -((h12 * h02 - h01 * h22) * g0 + (h00 * h22 - h02 * h02) * g1 +
      (h01 * h02 - h00 * h12) * g2) / det
  let x2 := -((h01 * h12 - h11 * h02) * g0 + (h01 * h02 - h00 * h12) * g1 +
      (h00 * h11 - h01 * h01) * g2) / det
  let peakval := d r c + (x0 * g0 + x1 * g1 + x2 * g2) / 2
  ((x0, x1, x2), peakval)

/-- The re-centered row of `my_interp_keypoint` (test_image.py lines 150-155):
`newr = r`, incremented when `x[1] > 0.6 and r < height - 3`, decremented when
`x[1] < -0.6 and r > 3`. -/
def interpNewR (dp d dn : ℤ → ℤ → ℚ) (r c height : ℤ) : ℤ :=
  if (0.6 : ℚ) < (fit_quadratic dp d dn r c).1.2.1 ∧ r < height - 3 then r + 1
  else if (fit_quadratic dp d dn r c).1.2.1 < -(0.6 : ℚ) ∧ 3 < r then r - 1
  else r

/-- The re-centered column of `my_interp_keypoint` (test_image.py lines
156-160), symmetric to `interpNewR` with `x[2]` and the image width. -/
def interpNewC (dp d dn : ℤ → ℤ → ℚ) (r c width : ℤ) : ℤ :=
  if (0.6 : ℚ) < (fit_quadratic dp d dn r c).1.2.2 ∧ c < width - 3 then c + 1
  else if (fit_quadratic dp d dn r c).1.2.2 < -(0.6 : ℚ) ∧ 3 < c then c - 1
  else c

/-- `my_interp_keypoint` (test_image.py lines 143-173).  The returned record
is `(peakval, r + Δr, c + Δc, e)` where the fourth slot holds the scale
exponent `e = s + Δs`; the Python source stores `1.6 * 2.0 ** (e / 3.0)`
(see `ki_sigma` below), which is factored out here so that the refiner stays
executable over `ℚ`.  `some (-1, -1, -1, -1)` is the invalid marker.  In the
re-centering branch the source makes a recursive call whose result is
**discarded** (there is no `return` before it), after which the function falls
off its end and returns Python `None`; this is modelled by `none`. -/
def my_interp_keypoint (dp d dn : ℤ → ℤ → ℚ) (s : ℚ) (r c : ℤ)
    (movesRemain : ℕ) (peakthresh : ℚ) (width height : ℤ) :
    Option (ℚ × ℚ × ℚ × ℚ) :=
  let xp := fit_quadratic dp d dn r c
  let x0 := xp.1.1
  let x1 := xp.1.2.1
  let x2 := xp.1.2.2
  let peakval := xp.2
  if 0 < movesRemain ∧
      (interpNewR dp d dn r c height ≠ r ∨ interpNewC dp d dn r c width ≠ c) then
    none
  else if |x0| < (1.5 : ℚ) ∧ |x1| < (1.5 : ℚ) ∧ |x2| < (1.5 : ℚ) ∧
      peakthresh < |peakval| then
    some (peakval, (r : ℚ) + x1, (c : ℚ) + x2, s + x0)
  else
    some (-1, -1, -1, -1)

/-! ## Stored scale of a refined keypoint (test_image.py line 171)

`ki[3] = 1.6 * 2.0 ** ((float(s) + x[0]) / 3.0)`, with the source comments
"WARNING: replace 1.6 by InitSigma if InitSigma has not its default value" and
"3.0 is par.Scales".  Modelled over `ℝ` with real exponentiation. -/

/-- The scale the source stores for a refined keypoint at DoG level `s` with
refinement offset `ds`: base blur `1.6` and exponent denominator `3`, both
hard-coded. -/
noncomputable def ki_sigma (s ds : ℝ) : ℝ := 1.6 * (2 : ℝ) ^ ((s + ds) / 3)

/-- The scale claim C2 says should be stored: `σ₀ · 2^((i + Δs)/S)` for the
configured `InitSigma = σ₀` and `Scales = S`. -/
noncomputable def sigma_spec (σ₀ : ℝ) (S : ℕ) (s ds : ℝ) : ℝ :=
  σ₀ * (2 : ℝ) ^ ((s + ds) / (S : ℝ))

/-! ## Concrete DoG stacks used as counterexamples / failing inputs -/

/-- DoG stack triggering a re-centering move at `(10, 10)`: the quadratic fit
there has Hessian `I` and gradient `(0, -1, 0)`, hence offset
`x = (0, 1, 0)` with `x₁ = 1 > 0.6`.  Used with `dpM` as both `dog_prev` and
`dog_next`. -/
def dM : ℤ → ℤ → ℚ := fun i j =>
  if i = 9 ∧ j = 10 then 3 / 2
  else if i = 11 ∧ j = 10 then -(1 / 2)
  else if i = 10 ∧ (j = 9 ∨ j = 11) then 1 / 2
  else 0

/-- Companion previous/next DoG level for `dM`. -/
def dpM : ℤ → ℤ → ℚ := fun i j => if i = 10 ∧ j = 10 then 1 / 2 else 0

/-- Middle DoG level with a local minimum at `(5, 10)` whose quadratic fit
yields `x = (0, -1/2, 0)`: the candidate sits exactly on the border row
`r = B = 5` and its refined row is `4.5 < B`.  Used with `dpC` as both
`dog_prev` and `dog_next`. -/
def dC : ℤ → ℤ → ℚ := fun i j =>
  if i = 5 ∧ j = 10 then -1
  else if i = 4 ∧ j = 10 then -1
  else if i = 5 ∧ (j = 9 ∨ j = 11) then -(1 / 2)
  else 0

/-- Companion previous/next DoG level for `dC`. -/
def dpC : ℤ → ℤ → ℚ := fun i j => if i = 5 ∧ j = 10 then -(1 / 2) else 0

/-! ## Gaussian kernel table (`SiftPlan._init_gaussian`, plan.py lines 146-160)

`size = int(8 * sigma + 1)`; `x = numpy.arange(size) - (size - 1.0) / 2.0`;
`gaussian = numpy.exp(-(x / sigma) ** 2 / 2.0)`;
`gaussian /= gaussian.sum()`.  Modelled over `ℝ`. -/

/-- `int(8 * sigma + 1)`: for `sigma > 0` the argument is positive, so the
truncation is the floor. -/
noncomputable def gaussianSize (σ : ℝ) : ℕ := (⌊8 * σ + 1⌋).toNat

/-- The unnormalized tap array `numpy.exp(-(x / sigma) ** 2 / 2.0)` with
`x = index - (size - 1)/2`. -/
noncomputable def gaussianRaw (σ : ℝ) : List ℝ :=
  (List.range (gaussianSize σ)).map fun (i : ℕ) =>
    Real.exp (-(((i : ℝ) - ((gaussianSize σ : ℝ) - 1) / 2) / σ) ^ 2 / 2)

/-- The tap array after the host-side normalization `gaussian /= gaussian.sum()`. -/
noncomputable def gaussianNormed (σ : ℝ) : List ℝ :=
  (gaussianRaw σ).map fun t => t / (gaussianRaw σ).sum

instance (dp d dn : ℤ → ℤ → ℚ) (thresh : ℚ) (i0 j0 : ℤ) :
    Decidable (claimCandidate dp d dn thresh i0 j0) := by
  unfold claimCandidate; infer_instance

attribute [local semireducible] Rat.mul Rat.inv Rat.add Rat.sub Rat.ofScientific

/-! ## Helper lemmas -/

theorem div_two_pow (n k : ℕ) : n / 2 / 2 ^ k = n / 2 ^ (k + 1) := by
  rw [Nat.div_div_eq_div_mul, pow_succ, Nat.mul_comm]

theorem scalesLoop_length_eq (B : ℕ) (wg ps : ℕ × ℕ → ℕ × ℕ) :
    ∀ H W : ℕ, (scalesLoop B H W).length = (workgroupsLoop B wg ps H W).length := by
  intro H
  induction H using Nat.strong_induction_on with
  | _ H ih =>
    intro W
    unfold scalesLoop workgroupsLoop
    by_cases h : 2 * B + 2 < min H W
    · rw [dif_pos h, dif_pos h]
      simp only [List.length_cons]
      have hH : 0 < H := by have := lt_of_lt_of_le h (Nat.min_le_left H W); omega
      rw [ih (H / 2) (Nat.div_lt_self hH one_lt_two) (W / 2)]
    · rw [dif_neg h, dif_neg h]
      rfl

theorem scalesLoop_spec (B : ℕ) : ∀ H W : ℕ,
    (∀ o < (scalesLoop B H W).length, 2 * B + 2 < min (H / 2 ^ o) (W / 2 ^ o)) ∧
      ¬ 2 * B + 2 <
        min (H / 2 ^ (scalesLoop B H W).length) (W / 2 ^ (scalesLoop B H W).length) := by
  intro H
  induction H using Nat.strong_induction_on with
  | _ H ih =>
    intro W
    unfold scalesLoop
    by_cases h : 2 * B + 2 < min H W
    · rw [dif_pos h]
      have hH : 0 < H := by have := lt_of_lt_of_le h (Nat.min_le_left H W); omega
      obtain ⟨ih1, ih2⟩ := ih (H / 2) (Nat.div_lt_self hH one_lt_two) (W / 2)
      simp only [List.length_cons]
      constructor
      · intro o ho
        match o with
        | 0 => simpa using h
        | o + 1 =>
          have := ih1 o (by omega)
          rwa [div_two_pow, div_two_pow] at this
      · rw [← div_two_pow, ← div_two_pow]
        exact ih2
    · rw [dif_neg h]
      exact ⟨fun o ho => absurd ho (by simp), by simpa using h⟩

theorem calc_scales_length (B H W : ℕ) :
    (calc_scales B H W).length = (scalesLoop B H W).length := by
  simp [calc_scales]

theorem ismaxAt_iff (dp d dn : ℤ → ℤ → ℚ) (v : ℚ) (i0 j0 : ℤ) :
    ismaxAt dp d dn v i0 j0 = true ↔
      0 < v ∧ ∀ p ∈ cells i0 j0, dp p.1 p.2 ≤ v ∧ d p.1 p.2 ≤ v ∧ dn p.1 p.2 ≤ v := by
  simp [ismaxAt, List.all_eq_true, not_or, not_lt, and_assoc]

theorem isminAt_iff (dp d dn : ℤ → ℤ → ℚ) (v : ℚ) (i0 j0 : ℤ) :
    isminAt dp d dn v i0 j0 = true ↔
      ¬ 0 < v ∧ ∀ p ∈ cells i0 j0, v ≤ dp p.1 p.2 ∧ v ≤ d p.1 p.2 ∧ v ≤ dn p.1 p.2 := by
  simp [isminAt, List.all_eq_true, not_or, not_lt, and_assoc]

theorem mem_neighbors26 {dp d dn : ℤ → ℤ → ℚ} {i0 j0 : ℤ} {x : ℚ} :
    x ∈ neighbors26 dp d dn i0 j0 ↔
      (∃ p ∈ cells i0 j0, dp p.1 p.2 = x) ∨
        (∃ p ∈ cells i0 j0, p ≠ (i0, j0) ∧ d p.1 p.2 = x) ∨
        (∃ p ∈ cells i0 j0, dn p.1 p.2 = x) := by
  simp [neighbors26, List.mem_append, List.mem_map, List.mem_filter, and_assoc]

theorem cells_le_iff (dp d dn : ℤ → ℤ → ℚ) (i0 j0 : ℤ) :
    (∀ x ∈ neighbors26 dp d dn i0 j0, x ≤ d i0 j0) ↔
      ∀ p ∈ cells i0 j0,
        dp p.1 p.2 ≤ d i0 j0 ∧ d p.1 p.2 ≤ d i0 j0 ∧ dn p.1 p.2 ≤ d i0 j0 := by
  constructor
  · intro h p hp
    refine ⟨h _ (mem_neighbors26.mpr (Or.inl ⟨p, hp, rfl⟩)), ?_,
      h _ (mem_neighbors26.mpr (Or.inr (Or.inr ⟨p, hp, rfl⟩)))⟩
    by_cases hc : p = (i0, j0)
    · subst hc
      exact le_rfl
    · exact h _ (mem_neighbors26.mpr (Or.inr (Or.inl ⟨p, hp, hc, rfl⟩)))
  · intro h x hx
    rcases mem_neighbors26.mp hx with ⟨p, hp, rfl⟩ | ⟨p, hp, -, rfl⟩ | ⟨p, hp, rfl⟩
    · exact (h p hp).1
    · exact (h p hp).2.1
    · exact (h p hp).2.2

theorem cells_ge_iff (dp d dn : ℤ → ℤ → ℚ) (i0 j0 : ℤ) :
    (∀ x ∈ neighbors26 dp d dn i0 j0, d i0 j0 ≤ x) ↔
      ∀ p ∈ cells i0 j0,
        d i0 j0 ≤ dp p.1 p.2 ∧ d i0 j0 ≤ d p.1 p.2 ∧ d i0 j0 ≤ dn p.1 p.2 := by
  constructor
  · intro h p hp
    refine ⟨h _ (mem_neighbors26.mpr (Or.inl ⟨p, hp, rfl⟩)), ?_,
      h _ (mem_neighbors26.mpr (Or.inr (Or.inr ⟨p, hp, rfl⟩)))⟩
    by_cases hc : p = (i0, j0)
    · subst hc
      exact le_rfl
    · exact h _ (mem_neighbors26.mpr (Or.inr (Or.inl ⟨p, hp, hc, rfl⟩)))
  · intro h x hx
    rcases mem_neighbors26.mp hx with ⟨p, hp, rfl⟩ | ⟨p, hp, -, rfl⟩ | ⟨p, hp, rfl⟩
    · exact (h p hp).1
    · exact (h p hp).2.1
    · exact (h p hp).2.2

theorem is_maxmin_ne_zero_iff (dp d dn : ℤ → ℤ → ℚ) (v : ℚ) (i0 j0 : ℤ)
    (octsize : ℤ) (eth0 eth : ℚ) :
    is_maxmin dp d dn v i0 j0 octsize eth0 eth ≠ 0 ↔
      ¬ edgeDet d i0 j0 <
          edgeThr octsize eth0 eth * edgeTrace d i0 j0 * edgeTrace d i0 j0 ∧
        (ismaxAt dp d dn v i0 j0 = true ∨ isminAt dp d dn v i0 j0 = true) := by
  unfold is_maxmin
  split_ifs with h1 h2 h3 <;> simp [*]

theorem sum_map_div (l : List ℝ) (c : ℝ) :
    (l.map fun x => x / c).sum = l.sum / c := by
  induction l with
  | nil => simp
  | cons a t ih => simp [ih, add_div]

theorem gaussianRaw_length (σ : ℝ) : (gaussianRaw σ).length = gaussianSize σ := by
  unfold gaussianRaw
  rw [List.length_map, List.length_range]

theorem gaussianSize_pos (σ : ℝ) (hσ : 0 < σ) : 1 ≤ gaussianSize σ := by
  unfold gaussianSize
  have h1 : (1 : ℤ) ≤ ⌊8 * σ + 1⌋ := Int.le_floor.mpr (by push_cast; linarith)
  omega

theorem gaussianRaw_sum_pos (σ : ℝ) (hσ : 0 < σ) : 0 < (gaussianRaw σ).sum := by
  apply List.sum_pos
  · intro x hx
    simp only [gaussianRaw, List.mem_map] at hx
    obtain ⟨i, -, rfl⟩ := hx
    exact Real.exp_pos _
  · exact List.ne_nil_of_length_pos
      (by rw [gaussianRaw_length]; have := gaussianSize_pos σ hσ; omega)

/-! ## Claim theorems -/

/-- C1: the spec claims that after the S+2 blur/DoG steps of each octave the
pipeline produces G[o+1,0] by stride-2 decimation of G[o,S].  In the source,
the guard `if i < par.Scales + 1:` of the `shrink` call sits at the
indentation level of the octave loop and reads the loop variable `i` after
the inner loop has finished, where `i = S + 1`; the guard is therefore always
false and no decimation is ever enqueued, for any number of scales and
octaves.  (Moreover the source buffer written in that dead call is
`(octave, 0, "G")`, not level S.)  This theorem documents the divergence:
the enqueued pyramid trace contains no shrink operation at all. -/
theorem C1_no_decimation_enqueued (S nOct : ℕ) :
    (pyramidOps S nOct).countP (fun op => op.isShrink) = 0 := by
  rw [List.countP_eq_zero]
  intro op hop
  simp only [pyramidOps, List.mem_flatMap, List.mem_range] at hop
  obtain ⟨o, -, hmem⟩ := hop
  simp only [octaveOps, lastLoopIndex, List.mem_append, List.mem_flatMap,
    List.mem_range, lt_self_iff_false, if_false, List.not_mem_nil, or_false] at hmem
  obtain ⟨i, -, hmem⟩ := hmem
  simp only [List.mem_cons, List.not_mem_nil, or_false] at hmem
  rcases hmem with rfl | rfl <;> simp [PyrOp.isShrink]

/-- C2: the claim states that the stored scale of a refined keypoint equals
σ₀·2^((i+Δs)/S) for any σ₀ and S.  The source hard-codes σ₀ = 1.6 and S = 3
(`ki[3] = 1.6 * 2.0**((float(s) + x[0]) / 3.0)`), as its own comments admit;
for σ₀ = 1.6, S = 6, level i = 6, Δs = 0 the source stores 1.6·2² = 6.4
while the claimed value is 1.6·2¹ = 3.2. -/
theorem C2_sigma_exponent_hardcoded : ki_sigma 6 0 ≠ sigma_spec 1.6 6 6 0 := by
  have h1 : ki_sigma 6 0 = 1.6 * 4 := by
    unfold ki_sigma
    rw [show ((6 : ℝ) + 0) / 3 = ((2 : ℕ) : ℝ) by norm_num, Real.rpow_natCast]
    norm_num
  have h2 : sigma_spec 1.6 6 6 0 = 1.6 * 2 := by
    unfold sigma_spec
    rw [show ((6 : ℝ) + 0) / ((6 : ℕ) : ℝ) = ((1 : ℕ) : ℝ) by norm_num,
      Real.rpow_natCast]
    norm_num
  rw [h1, h2]
  norm_num

/-- C3 counterexample: on a constant DoG stack of value 1 with
PeakThresh = 1 (octsize 4, edge thresholds 0.08/0.06), every neighbor equals
the centre value, yet the detector emits a candidate at (10, 10) — the
source's comparisons are strict, so a neighbor *equal* to v never clears the
`ismax`/`ismin` flag, and the flat Hessian passes the edge test
(det = trace = 0).  The claim instead demands strictly smaller/greater
neighbors, under which this point must not be a candidate. -/
theorem C3_counterexample :
    local_maxmin_emit (fun _ _ => 1) (fun _ _ => 1) (fun _ _ => 1) 1 4
        (8 / 100) (6 / 100) 10 10 = true ∧
      ¬ claimCandidate (fun _ _ => 1) (fun _ _ => 1) (fun _ _ => 1) 1 10 10 := by
  constructor
  · decide
  · decide

/-- C3 (amended): the detector emits a candidate at a pixel iff
|v| > 0.8·PeakThresh, every one of the 26 neighbors in the 3×3×3 neighborhood
is ≤ v (maximum case, v > 0) or ≥ v (minimum case, v ≤ 0) — equality with a
neighbor does **not** disqualify a candidate — and additionally the Hessian
edge test passes (not det < thr·trace²), which the claim's "if and only if"
omitted. -/
theorem C3_emission_characterization (dp d dn : ℤ → ℤ → ℚ) (thresh : ℚ)
    (octsize : ℤ) (eth0 eth : ℚ) (i0 j0 : ℤ) :
    local_maxmin_emit dp d dn thresh octsize eth0 eth i0 j0 = true ↔
      (0.8 : ℚ) * thresh < |d i0 j0| ∧
        ((0 < d i0 j0 ∧ ∀ x ∈ neighbors26 dp d dn i0 j0, x ≤ d i0 j0) ∨
          (¬ 0 < d i0 j0 ∧ ∀ x ∈ neighbors26 dp d dn i0 j0, d i0 j0 ≤ x)) ∧
        ¬ edgeDet d i0 j0 <
            edgeThr octsize eth0 eth * edgeTrace d i0 j0 * edgeTrace d i0 j0 := by
  unfold local_maxmin_emit
  rw [Bool.and_eq_true, decide_eq_true_eq, decide_eq_true_eq,
    is_maxmin_ne_zero_iff, ismaxAt_iff, isminAt_iff, cells_le_iff, cells_ge_iff]
  tauto

/-- C4: the claim states the refiner returns either an accepted record or the
invalid marker, with no third result.  On a DoG stack whose quadratic fit at
(10, 10) gives Δr = 1 > 0.6 (within interior bounds, move budget 5), the
source triggers the re-centering branch, whose recursive call's result is
discarded; the function then returns Python `None` — a third outcome distinct
from both an accepted record and the invalid marker `(-1, -1, -1, -1)`. -/
theorem C4_recentering_returns_none :
    my_interp_keypoint dpM dM dpM 1 10 10 5 (1 / 10) 100 100 = none := by decide

/-- C6 counterexample: for a 13×13 image with BorderDist = 5 the source's
`_calc_scales` produces one octave (`[(13, 13)]` after the pop), while the
claim's formula — the largest O with all octaves below O satisfying the size
bound, minus one — gives 1 - 1 = 0.  The "minus one" is wrong: the popped
list element is the first shape that violates the bound (appended by the
final loop iteration), not the smallest valid octave. -/
theorem C6_counterexample :
    (calc_scales 5 13 13).length ≠ claimedOctaveCount 5 13 13 := by
  have e2 : scalesLoop 5 6 6 = [] := by
    unfold scalesLoop
    norm_num
  have e1 : scalesLoop 5 13 13 = [(6, 6)] := by
    unfold scalesLoop
    norm_num [e2]
  have h1 : (calc_scales 5 13 13).length = 1 := by
    rw [calc_scales_length, e1]
    rfl
  have h2 : claimedOctaveCount 5 13 13 = 0 := by decide
  omega

/-- C6 (amended): the number of octaves `_calc_scales` constructs is the
largest O such that every octave o < O satisfies
min(⌊H/2^o⌋, ⌊W/2^o⌋) > 2·B + 2 — with no "minus one": all valid octaves are
kept, and the element removed by the final `pop` is the first invalid shape,
which the loop had appended before its guard could reject it. -/
theorem C6_octave_count (B H W : ℕ) :
    validUpTo B H W (calc_scales B H W).length ∧
      ¬ 2 * B + 2 <
        min (H / 2 ^ (calc_scales B H W).length) (W / 2 ^ (calc_scales B H W).length) := by
  rw [calc_scales_length]
  exact scalesLoop_spec B H W

/-- C5 counterexample: on the DoG stack `dC`/`dpC` with BorderDist B = 5 over
a 100×100 level, the detector emits the candidate at (5, 10) — row exactly at
the border B — and the refiner accepts it with Δr = -1/2, storing row
4.5 < B = 5, outside the claimed half-open range [B, H−B). -/
theorem C5_counterexample :
    local_maxmin_emit dpC dC dpC (1 / 10) 4 (8 / 100) (6 / 100) 5 10 = true ∧
      my_interp_keypoint dpC dC dpC 1 5 10 5 (1 / 10) 100 100 =
        some (-(9 / 8), 9 / 2, 10, 1) ∧
      ¬ (5 : ℚ) ≤ 9 / 2 := by
  refine ⟨by decide, by decide, by norm_num⟩

/-- C5 (amended): for a candidate whose integer position lies in the scan
region [B, H−B) × [B, W−B), any non-invalid record the refiner returns has
its stored row in the open interval (B − 1.5, (H − B − 1) + 1.5) and its
stored column in (B − 1.5, (W − B − 1) + 1.5): the accepted sub-pixel offsets
satisfy only |Δr|, |Δc| < 1.5, so the coordinates may leave [B, H−B) by up to
1.5 pixels (the claimed containment in [B, H−B) itself does not hold). -/
theorem C5_refined_coordinate_bounds (dp d dn : ℤ → ℤ → ℚ) (s : ℚ) (r c : ℤ)
    (moves : ℕ) (pt : ℚ) (width height B : ℤ) (k : ℚ × ℚ × ℚ × ℚ)
    (hr1 : B ≤ r) (hr2 : r < height - B) (hc1 : B ≤ c) (hc2 : c < width - B)
    (hk : my_interp_keypoint dp d dn s r c moves pt width height = some k)
    (hne : k ≠ (-1, -1, -1, -1)) :
    ((B : ℚ) - 1.5 < k.2.1 ∧ k.2.1 < (height : ℚ) - B - 1 + 1.5) ∧
      ((B : ℚ) - 1.5 < k.2.2.1 ∧ k.2.2.1 < (width : ℚ) - B - 1 + 1.5) := by
  simp only [my_interp_keypoint] at hk
  split at hk
  · exact Option.noConfusion hk
  · split at hk
    · next hacc =>
      obtain ⟨h0, h1, h2, h3⟩ := hacc
      rw [Option.some.injEq] at hk
      subst hk
      rw [abs_lt] at h1 h2
      have hBr : (B : ℚ) ≤ (r : ℚ) := by exact_mod_cast hr1
      have hBc : (B : ℚ) ≤ (c : ℚ) := by exact_mod_cast hc1
      have hrh : (r : ℚ) ≤ (height : ℚ) - (B : ℚ) - 1 := by
        have h' : (r : ℚ) ≤ ((height - B - 1 : ℤ) : ℚ) := by
          exact_mod_cast (by omega : r ≤ height - B - 1)
        push_cast at h'
        linarith
      have hcw : (c : ℚ) ≤ (width : ℚ) - (B : ℚ) - 1 := by
        have h' : (c : ℚ) ≤ ((width - B - 1 : ℤ) : ℚ) := by
          exact_mod_cast (by omega : c ≤ width - B - 1)
        push_cast at h'
        linarith
      refine ⟨⟨?_, ?_⟩, ?_, ?_⟩ <;> dsimp only <;> linarith [h1.1, h1.2, h2.1, h2.2]
    · rw [Option.some.injEq] at hk
      exact absurd hk.symm hne

/-- C5 witness: the amended bound instantiated on the concrete accepted
keypoint of `C5_counterexample` (B = 5, 100×100, record row 9/2). -/
theorem C5_refined_coordinate_bounds_witness :
    (my_interp_keypoint dpC dC dpC 1 5 10 5 (1 / 10) 100 100 =
        some (-(9 / 8), 9 / 2, 10, 1)) ∧
      ((((5 : ℤ) : ℚ) - 1.5 < 9 / 2 ∧ (9 / 2 : ℚ) < ((100 : ℤ) : ℚ) - 5 - 1 + 1.5) ∧
        (((5 : ℤ) : ℚ) - 1.5 < 10 ∧ (10 : ℚ) < ((100 : ℤ) : ℚ) - 5 - 1 + 1.5)) :=
  ⟨by decide,
    C5_refined_coordinate_bounds dpC dC dpC 1 5 10 5 (1 / 10) 100 100 5
      (-(9 / 8), 9 / 2, 10, 1)
      (by decide) (by decide) (by decide) (by decide) (by decide) (by decide)⟩

/-- C7: for every σ > 0 in the Gaussian kernel table, the tap array has
length ⌊8σ+1⌋, the tap at index i is exp(−x²/(2σ²)) for
x = i − (L−1)/2 (centred at (L−1)/2), and the host-side normalization makes
the sum exactly 1 in the real-valued model — in particular within 1e−6. -/
theorem C7_gaussian_taps (σ : ℝ) (hσ : 0 < σ) :
    (gaussianNormed σ).length = (⌊8 * σ + 1⌋).toNat ∧
      gaussianRaw σ = (List.range (gaussianSize σ)).map (fun (i : ℕ) =>
        Real.exp (-((i : ℝ) - ((gaussianSize σ : ℝ) - 1) / 2) ^ 2 / (2 * σ ^ 2))) ∧
      (gaussianNormed σ).sum = 1 ∧
      |(gaussianNormed σ).sum - 1| ≤ 1 / 1000000 := by
  have hsum := gaussianRaw_sum_pos σ hσ
  have hsum1 : (gaussianNormed σ).sum = 1 := by
    unfold gaussianNormed
    rw [sum_map_div, div_self (ne_of_gt hsum)]
  refine ⟨?_, ?_, hsum1, ?_⟩
  · unfold gaussianNormed
    rw [List.length_map, gaussianRaw_length]
    rfl
  · unfold gaussianRaw
    apply List.map_congr_left
    intro i _
    congr 1
    ring
  · rw [hsum1]
    norm_num

/-- C7 witness: the tap-table properties instantiated at σ = 1
(length ⌊9⌋ = 9, centred taps, normalized sum 1). -/
theorem C7_gaussian_taps_witness :
    (0 : ℝ) < 1 ∧
      ((gaussianNormed 1).length = (⌊8 * (1 : ℝ) + 1⌋).toNat ∧
        gaussianRaw 1 = (List.range (gaussianSize 1)).map (fun (i : ℕ) =>
          Real.exp (-((i : ℝ) - ((gaussianSize 1 : ℝ) - 1) / 2) ^ 2 /
            (2 * (1 : ℝ) ^ 2))) ∧
        (gaussianNormed 1).sum = 1 ∧
        |(gaussianNormed 1).sum - 1| ≤ 1 / 1000000) :=
  ⟨one_pos, C7_gaussian_taps 1 one_pos⟩

/-- C8: buffer teardown visits every registry entry in one pass; an entry
whose release fails is logged and the loop continues, so afterwards every
entry is cleared regardless of which releases failed, the registry keys are
unchanged, and the log holds exactly the names of the present entries whose
release failed, in visit order. -/
theorem C8_teardown_completes {α : Type} (fail : α → Bool)
    (bufs : List (α × Option Unit)) :
    (free_buffers fail bufs).1.map Prod.fst = bufs.map Prod.fst ∧
      (∀ p ∈ (free_buffers fail bufs).1, p.2 = none) ∧
      (free_buffers fail bufs).2 =
        (bufs.filter fun p => p.2.isSome && fail p.1).map Prod.fst := by
  induction bufs with
  | nil => exact ⟨rfl, by simp [free_buffers], rfl⟩
  | cons hd tl ih =>
    obtain ⟨n, b⟩ := hd
    obtain ⟨ih1, ih2, ih3⟩ := ih
    cases b with
    | none =>
      refine ⟨?_, ?_, ?_⟩
      · simpa [free_buffers] using ih1
      · intro p hp
        simp only [free_buffers, List.mem_cons] at hp
        rcases hp with rfl | hp
        · rfl
        · exact ih2 p hp
      · simpa [free_buffers] using ih3
    | some u =>
      refine ⟨?_, ?_, ?_⟩
      · simpa [free_buffers] using ih1
      · intro p hp
        simp only [free_buffers, List.mem_cons] at hp
        rcases hp with rfl | hp
        · rfl
        · exact ih2 p hp
      · by_cases hf : fail n <;> simpa [free_buffers, hf] using ih3

/-- C9 counterexample: a plan constructed from the 3-D uint8 shape (4, 5, 3)
stores the truncated shape (4, 5) with the RGB flag set; the 2-D uint8 image
of shape (4, 5) passes both asserts of `keypoints` and *does* reach the
`rgb_to_float` branch, contradicting the claim that no image passing the
assertion can reach it. -/
theorem C9_counterexample :
    initShape [4, 5, 3] = some ([4, 5], true) ∧
      keypointsBranch ([4, 5], true) DType.u8 [4, 5] DType.u8 =
        ConvBranch.rgbToFloat := by
  constructor
  · rfl
  · rfl

/-- C9 (amended): the stored shape of a plan built from a 3-D shape is the
first two dimensions with the RGB flag set, and the shape assertion of
`keypoints` fails for every 3-D image of the constructor's shape; the
`rgb_to_float` branch is however still reachable — it is taken exactly for a
2-D uint8 image matching the truncated stored shape. -/
theorem C9_rgb_branch (a b c : ℕ) (dt dt2 : DType) (img : List ℕ) :
    initShape [a, b, c] = some ([a, b], true) ∧
      keypointsBranch ([a, b], true) dt [a, b, c] dt2 = ConvBranch.assertFail ∧
      (keypointsBranch ([a, b], true) DType.u8 img dt2 = ConvBranch.rgbToFloat ↔
        img = [a, b] ∧ dt2 = DType.u8) := by
  refine ⟨by simp [initShape], ?_, ?_⟩
  · unfold keypointsBranch
    rw [if_neg]
    rintro ⟨h, -⟩
    exact absurd (congrArg List.length h) (by simp)
  · by_cases h : img = [a, b] ∧ dt2 = DType.u8
    · obtain ⟨h1, h2⟩ := h
      subst h1
      subst h2
      simp [keypointsBranch]
    · unfold keypointsBranch
      rw [if_neg h]
      simp only [h, iff_false]
      intro hcontra
      cases hcontra

/-- C10: after construction the per-octave lists are equally long:
`len(scales) = len(wgsize) = len(procsize)` for every border distance, image
shape, and device-dependent workgroup/processing-size functions, so every
octave index used by `keypoints` and `gaussian_convolution` is in range for
all three lists. -/
theorem C10_per_octave_lists_same_length (B H W : ℕ) (wg ps : ℕ × ℕ → ℕ × ℕ) :
    (calc_scales B H W).length = (wgsizeList B wg ps H W).length ∧
      (wgsizeList B wg ps H W).length = (procsizeList B wg ps H W).length := by
  constructor
  · rw [calc_scales_length]
    unfold wgsizeList
    rw [List.length_map]
    exact scalesLoop_length_eq B wg ps H W
  · unfold wgsizeList procsizeList
    rw [List.length_map, List.length_map]

end SiftPyocl
